import Mathlib

/-!
Verification development for the cargo2nix core: the fixpoint activation
resolver of src/resolve.rs and the optionality / condition engine of
src/main.rs, shallowly embedded in Lean.  BTreeMap / BTreeSet values are
modelled as association lists / duplicate-free lists with explicit
insertion operations; the worklist loop is modelled as a fuel-indexed
iteration of a single-request step function; Rust panics (out-of-bounds
indexing) are modelled by the error case of Except.
-/

set_option autoImplicit false

namespace Cargo2nix

abbrev PackageId := String

/-- Association-list lookup, modelling BTreeMap::get. -/
def lookupA {K V : Type} [DecidableEq K] : List (K × V) → K → Option V
  | [], _ => none
  | (k1, v) :: rest, k => if k = k1 then some v else lookupA rest k

/-- Association-list insert-or-overwrite, modelling BTreeMap::insert. -/
def insertA {K V : Type} [DecidableEq K] : List (K × V) → K → V → List (K × V)
  | [], k, v => [(k, v)]
  | (k1, v1) :: rest, k, v =>
    if k = k1 then (k, v) :: rest else (k1, v1) :: insertA rest k v

/-- BTreeMap::entry(k).or_default() followed by an in-place update by f. -/
def updateA {K V : Type} [DecidableEq K] (m : List (K × V)) (k : K) (dflt : V)
    (f : V → V) : List (K × V) :=
  match lookupA m k with
  | some v => insertA m k (f v)
  | none => insertA m k (f dflt)

/-- BTreeSet::insert: returns whether the element was newly inserted,
together with the updated set. -/
def insertSet {A : Type} [DecidableEq A] (s : List A) (a : A) : Bool × List A :=
  if a ∈ s then (false, s) else (true, s ++ [a])

/-! ## Os bit-set (resolve.rs, bitflags) -/

namespace Os

def LINUX : Nat := 0b0100000001
def WINDOWS : Nat := 0b0000000010
def ANDROID : Nat := 0b0100000101
def IOS : Nat := 0b0100001000
def FREEBSD : Nat := 0b0100010000
def NETBSD : Nat := 0b0100100000
def OPENBSD : Nat := 0b0101000000
def MACOS : Nat := 0b0110000000
def UNIX : Nat := 0b0100000000
def OTHER : Nat := 0b1000000000

end Os

/-- bitflags `contains`: all bits of b are set in a. -/
def osContains (a b : Nat) : Bool := a &&& b = b

/-- impl From of a raw string for Os (resolve.rs lines 171-185). -/
def osFromStr (s : String) : Nat :=
  match s with
  | "linux" => Os.LINUX
  | "windows" => Os.WINDOWS
  | "android" => Os.ANDROID
  | "ios" => Os.IOS
  | "freebsd" => Os.FREEBSD
  | "netbsd" => Os.NETBSD
  | "openbsd" => Os.OPENBSD
  | "macos" => Os.MACOS
  | _ => Os.OTHER

/-- impl Display for Os (resolve.rs lines 187-207): fixed priority order,
empty output when no arm matches.  Note there is no arm for OPENBSD. -/
def osDisplay (o : Nat) : String :=
  if osContains o Os.ANDROID then "android"
  else if osContains o Os.WINDOWS then "windows"
  else if osContains o Os.LINUX then "linux"
  else if osContains o Os.IOS then "ios"
  else if osContains o Os.MACOS then "macos"
  else if osContains o Os.FREEBSD then "freebsd"
  else if osContains o Os.NETBSD then "netbsd"
  else ""

/-! ## Platform (resolve.rs) -/

inductive Endianness
  | Big
  | Little
  | Other (s : String)
deriving DecidableEq

inductive Env
  | Gnu
  | Musl
  | Msvc
  | Other (s : String)
deriving DecidableEq

inductive PointerWidth
  | I32
  | I64
  | Other (s : String)
deriving DecidableEq

def Endianness.display : Endianness → String
  | .Big => "big"
  | .Little => "little"
  | .Other s => s

def Env.display : Env → String
  | .Gnu => "gnu"
  | .Musl => "musl"
  | .Msvc => "msvc"
  | .Other s => s

def PointerWidth.display : PointerWidth → String
  | .I32 => "32"
  | .I64 => "64"
  | .Other s => s

structure Platform where
  config : String
  arch : Option String
  os : Option Nat
  endianness : Option Endianness
  env : Option Env
  pointer_width : Option PointerWidth
  vendor : Option String
deriving DecidableEq

/-! ## Conditional-compilation predicates.

The repository declares `pub mod cfg; pub mod parser;` but those modules are
not under src/, so the expression type, its evaluator and the parser are
modelled from the spec (sections 4.1 and 4.3). -/

/-- Modelled from the spec: boolean expression tree of a cfg predicate —
atoms like target_os = value and feature = name, combinators all / any /
not (the cfg module is absent from src). -/
inductive CfgExpr
  | all (xs : List CfgExpr)
  | anyE (xs : List CfgExpr)
  | notE (x : CfgExpr)
  | atom (key : String) (value : Option String)

/-- Modelled from the spec: evaluation of one cfg atom against a concrete
platform plus the evaluating package's own currently-enabled feature set —
feature atoms are tested against that feature list, not the platform
(the cfg module is absent from src). -/
def cfgAtom (p : Platform) (crate_features : List String) (k : String)
    (v : Option String) : Bool :=
  match k, v with
  | "feature", some f => crate_features.contains f
  | "unix", none =>
    match p.os with
    | some os => osContains os Os.UNIX
    | none => false
  | "windows", none =>
    match p.os with
    | some os => osContains os Os.WINDOWS
    | none => false
  | "target_os", some s =>
    match p.os with
    | some os => osContains os (osFromStr s)
    | none => false
  | "target_family", some s =>
    match p.os with
    | some os =>
      if s = "unix" then osContains os Os.UNIX
      else if s = "windows" then osContains os Os.WINDOWS
      else false
    | none => false
  | "target_arch", some s => p.arch = some s
  | "target_env", some s =>
    match p.env with
    | some e => e.display = s
    | none => false
  | "target_endian", some s =>
    match p.endianness with
    | some e => e.display = s
    | none => false
  | "target_pointer_width", some s =>
    match p.pointer_width with
    | some w => w.display = s
    | none => false
  | "target_vendor", some s => p.vendor = some s
  | _, _ => false

mutual

/-- Modelled from the spec: cfg predicate evaluation (Pred::test of the
missing cfg module): all / any / not combinators over atoms. -/
def cfgTest (p : Platform) (crate_features : List String) : CfgExpr → Bool
  | .all xs => cfgTestAll p crate_features xs
  | .anyE xs => cfgTestAny p crate_features xs
  | .notE x => !(cfgTest p crate_features x)
  | .atom k v => cfgAtom p crate_features k v

def cfgTestAll (p : Platform) (crate_features : List String) : List CfgExpr → Bool
  | [] => true
  | x :: xs => cfgTest p crate_features x && cfgTestAll p crate_features xs

def cfgTestAny (p : Platform) (crate_features : List String) : List CfgExpr → Bool
  | [] => false
  | x :: xs => cfgTest p crate_features x || cfgTestAny p crate_features xs

end

/-! A small concrete lexer and recursive-descent reader for cfg strings,
modelled from the spec (the parser module is absent from src). -/

inductive CfgTok
  | lp
  | rp
  | comma
  | eq
  | ident (s : String)
  | str (s : String)
deriving DecidableEq

def isIdentChar (c : Char) : Bool := c.isAlpha || c.isDigit || c = '_'

/-- Modelled from the spec: tokenizer for cfg strings (the parser module is
absent from src).  Fuel-indexed; initial fuel is the character count plus
one, and every call consumes at least one character. -/
def lexCfg : Nat → List Char → Option (List CfgTok)
  | _, [] => some []
  | 0, _ :: _ => none
  | fuel + 1, c :: cs =>
    if c = ' ' then lexCfg fuel cs
    else if c = '(' then (lexCfg fuel cs).map (CfgTok.lp :: ·)
    else if c = ')' then (lexCfg fuel cs).map (CfgTok.rp :: ·)
    else if c = ',' then (lexCfg fuel cs).map (CfgTok.comma :: ·)
    else if c = '=' then (lexCfg fuel cs).map (CfgTok.eq :: ·)
    else if c = '"' then
      let content := cs.takeWhile (· ≠ '"')
      match cs.drop content.length with
      | '"' :: rest => (lexCfg fuel rest).map (CfgTok.str (String.mk content) :: ·)
      | _ => none
    else if isIdentChar c then
      let content := cs.takeWhile isIdentChar
      (lexCfg fuel (cs.drop content.length)).map
        (CfgTok.ident (String.mk (c :: content)) :: ·)
    else none

mutual

/-- Modelled from the spec: recursive-descent reading of one cfg predicate
from a token stream (the parser module is absent from src). -/
def parsePred : Nat → List CfgTok → Option (CfgExpr × List CfgTok)
  | 0, _ => none
  | fuel + 1, toks =>
    match toks with
    | CfgTok.ident "all" :: CfgTok.lp :: rest =>
      match parsePredList fuel rest with
      | some (xs, r) => some (CfgExpr.all xs, r)
      | none => none
    | CfgTok.ident "any" :: CfgTok.lp :: rest =>
      match parsePredList fuel rest with
      | some (xs, r) => some (CfgExpr.anyE xs, r)
      | none => none
    | CfgTok.ident "not" :: CfgTok.lp :: rest =>
      match parsePred fuel rest with
      | some (x, CfgTok.rp :: r) => some (CfgExpr.notE x, r)
      | _ => none
    | CfgTok.ident k :: CfgTok.eq :: CfgTok.str v :: rest =>
      some (CfgExpr.atom k (some v), rest)
    | CfgTok.ident k :: rest => some (CfgExpr.atom k none, rest)
    | _ => none

/-- Modelled from the spec: comma-separated predicate list closed by a
right parenthesis. -/
def parsePredList : Nat → List CfgTok → Option (List CfgExpr × List CfgTok)
  | 0, _ => none
  | fuel + 1, toks =>
    match toks with
    | CfgTok.rp :: rest => some ([], rest)
    | _ =>
      match parsePred fuel toks with
      | some (x, CfgTok.comma :: r) =>
        match parsePredList fuel r with
        | some (xs, r2) => some (x :: xs, r2)
        | none => none
      | some (x, CfgTok.rp :: r) => some ([x], r)
      | _ => none

end

/-- Modelled from the spec: parse_cfg of the missing parser module — a cfg
string of the shape cfg(pred); any other string fails to parse and the
surrounding code then skips the block. -/
def parse_cfg (s : String) : Option CfgExpr :=
  match lexCfg (s.length + 1) s.data with
  | none => none
  | some toks =>
    match toks with
    | CfgTok.ident "cfg" :: CfgTok.lp :: rest =>
      match parsePred (rest.length + 1) rest with
      | some (e, [CfgTok.rp]) => some e
      | _ => none
    | _ => none

/-! ## Package graph model (resolve.rs data types) -/

structure DepSpec where
  optional : Bool
  features : List String
  default_features : Bool
deriving DecidableEq

abbrev DepSpecMap := List (String × DepSpec)

structure TargetSpecMap where
  dependencies : DepSpecMap
  build_dependencies : DepSpecMap
  dev_dependencies : DepSpecMap
deriving DecidableEq

/-- Lib, with its proc-macro flag (field renamed from the source's
proc-macro spelling). -/
structure Lib where
  procMacroFlag : Bool
deriving DecidableEq

structure Manifest where
  lib : Lib
  dependencies : DepSpecMap
  build_dependencies : DepSpecMap
  dev_dependencies : DepSpecMap
  target : List (String × TargetSpecMap)
  features : List (String × List String)
deriving DecidableEq

structure Dependency where
  package_id : PackageId
  toml_names : List String
deriving DecidableEq

structure Package where
  dependencies : List Dependency
  manifest : Manifest
deriving DecidableEq

inductive TargetPlatform
  | Host
  | Build
deriving DecidableEq

def TargetPlatform.to_build : TargetPlatform → TargetPlatform
  | .Host => .Build
  | .Build => .Build

def TargetPlatform.to_host (t : TargetPlatform) : TargetPlatform := t

/-- impl Default for TargetPlatform (resolve.rs lines 978-982). -/
def TargetPlatform.dfault : TargetPlatform := TargetPlatform.Host

/-- PackageRequest, as deserialized: the target field carries a serde skip
attribute, so it is never read from the input and always holds the default
value. -/
structure PackageRequest where
  package_id : PackageId
  features : List String
  target : TargetPlatform
  use_dev_deps : Bool
deriving DecidableEq

/-- Deserialization of a PackageRequest from its serialized fields: the
target field is skipped and set to the default (Host). -/
def PackageRequest.deserialize (package_id : PackageId) (features : List String)
    (use_dev_deps : Bool) : PackageRequest :=
  { package_id := package_id, features := features,
    target := TargetPlatform.dfault, use_dev_deps := use_dev_deps }

structure ResolveRequest where
  build_platform : Platform
  host_platform : Platform
  packages : List (PackageId × Package)
  initial_requests : List PackageRequest

/-! ## Resolver state -/

abbrev FeatureMap := List (PackageId × List String)

structure DependingOn where
  build : List PackageId
  host : List PackageId
deriving DecidableEq

structure DependingOnState where
  depending_on : List (PackageId × DependingOn)
  build_depending_on : List (PackageId × DependingOn)
  dev_depending_on : List (PackageId × DependingOn)
deriving DecidableEq

inductive ModifyRequest
  | enablePackage (package_id : PackageId) (target : TargetPlatform) (use_dev_deps : Bool)
  | enableFeature (package_id : PackageId) (feature : String) (target : TargetPlatform)
deriving DecidableEq

def ModifyRequest.pid : ModifyRequest → PackageId
  | .enablePackage p _ _ => p
  | .enableFeature p _ _ => p

def ModifyRequest.role : ModifyRequest → TargetPlatform
  | .enablePackage _ t _ => t
  | .enableFeature _ _ t => t

structure ResolveState where
  req_queue : List ModifyRequest
  dos : DependingOnState
  features_enabled : FeatureMap
deriving DecidableEq

structure ResolveCtx where
  packages : List (PackageId × Package)
  mdo : List (PackageId × List (String × PackageId))
  build_platform : Platform
  host_platform : Platform

/-- Construction of the MayDependingOn relation (resolve.rs lines 429-443):
for each package, each toml alias name of each dependency maps to the
dependency's package id. -/
def buildMayDependingOn (packages : List (PackageId × Package)) :
    List (PackageId × List (String × PackageId)) :=
  packages.foldl
    (fun acc pkgEntry =>
      updateA acc pkgEntry.1 []
        (fun h =>
          pkgEntry.2.dependencies.foldl
            (fun h dep =>
              dep.toml_names.foldl (fun h nm => insertA h nm dep.package_id) h)
            h))
    []

def mkCtx (build_platform host_platform : Platform)
    (packages : List (PackageId × Package)) : ResolveCtx :=
  ⟨packages, buildMayDependingOn packages, build_platform, host_platform⟩

def platFor (ctx : ResolveCtx) : TargetPlatform → Platform
  | .Build => ctx.build_platform
  | .Host => ctx.host_platform

/-! ## enable_dep (resolve.rs lines 500-556) -/

/-- Inner loop of enable_dep over the dep-spec map: optional specs are
skipped; a toml name with no alias entry is skipped; the proc-macro flag of
the dependency's package is read by indexing into the package set, which
panics (error) when the package id is absent; the depending-on edge is
inserted into the set chosen by the requester's role (threaded in as dset),
and requests carry the shifted role. -/
def enable_dep_loop (package_set : List (PackageId × Package))
    (mdoEntry : List (String × PackageId)) (shifted : TargetPlatform) :
    List (String × DepSpec) → List PackageId → List ModifyRequest →
    Except String (List PackageId × List ModifyRequest)
  | [], dset, q => .ok (dset, q)
  | (nm, spec) :: rest, dset, q =>
    if spec.optional then enable_dep_loop package_set mdoEntry shifted rest dset q
    else
      match lookupA mdoEntry nm with
      | none => enable_dep_loop package_set mdoEntry shifted rest dset q
      | some d =>
        match lookupA package_set d with
        | none => .error "index out of bounds: no entry found for key"
        | some dpkg =>
          let t := if dpkg.manifest.lib.procMacroFlag then shifted.to_build else shifted
          let ins := insertSet dset d
          let q := if ins.1 then q ++ [ModifyRequest.enablePackage d t false] else q
          let q := if spec.default_features then q ++ [ModifyRequest.enableFeature d "default" t] else q
          let q := q ++ spec.features.map (fun f => ModifyRequest.enableFeature d f t)
          enable_dep_loop package_set mdoEntry shifted rest ins.2 q

/-- enable_dep: the target set within the per-package DependingOn record is
selected by the requester's role before the role shift is applied; the
entry is materialized (entry().or_default()) even when no dependency is
recorded. -/
def enable_dep (package_set : List (PackageId × Package)) (package_id : PackageId)
    (target : TargetPlatform) (dep_spec : DepSpecMap)
    (mdo : List (PackageId × List (String × PackageId)))
    (depending_on : List (PackageId × DependingOn))
    (target_shift : TargetPlatform → TargetPlatform)
    (req_queue : List ModifyRequest) :
    Except String (List (PackageId × DependingOn) × List ModifyRequest) :=
  let entry := (lookupA depending_on package_id).getD ⟨[], []⟩
  let mdoEntry := (lookupA mdo package_id).getD []
  let shifted := target_shift target
  match target with
  | .Host =>
    match enable_dep_loop package_set mdoEntry shifted dep_spec entry.host req_queue with
    | .error e => .error e
    | .ok (s, q) => .ok (insertA depending_on package_id { entry with host := s }, q)
  | .Build =>
    match enable_dep_loop package_set mdoEntry shifted dep_spec entry.build req_queue with
    | .error e => .error e
    | .ok (s, q) => .ok (insertA depending_on package_id { entry with build := s }, q)

/-- process_deps / process_build_deps / process_dev_deps in sequence
(resolve.rs lines 557-618): normal deps into depending_on with to_host,
build deps into build_depending_on with to_build, dev deps (only when
use_dev_deps) into dev_depending_on with to_host. -/
def processDepKinds (package_set : List (PackageId × Package))
    (mdo : List (PackageId × List (String × PackageId))) (package_id : PackageId)
    (target : TargetPlatform) (use_dev_deps : Bool)
    (deps bdeps ddeps : DepSpecMap) (st : DependingOnState)
    (q : List ModifyRequest) : Except String (DependingOnState × List ModifyRequest) :=
  match enable_dep package_set package_id target deps mdo st.depending_on TargetPlatform.to_host q with
  | .error e => .error e
  | .ok (m, q) =>
    match enable_dep package_set package_id target bdeps mdo st.build_depending_on TargetPlatform.to_build q with
    | .error e => .error e
    | .ok (mb, q) =>
      if use_dev_deps then
        match enable_dep package_set package_id target ddeps mdo st.dev_depending_on TargetPlatform.to_host q with
        | .error e => .error e
        | .ok (md, q) => .ok (⟨m, mb, md⟩, q)
      else .ok (⟨m, mb, st.dev_depending_on⟩, q)

/-- Conditional target blocks during EnablePackage (resolve.rs lines
619-664): literal config match first, otherwise the parsed predicate is
evaluated against the role's platform with an EMPTY feature list. -/
def packageTargetBlocks (package_set : List (PackageId × Package))
    (mdo : List (PackageId × List (String × PackageId))) (package_id : PackageId)
    (target : TargetPlatform) (use_dev_deps : Bool) (platform : Platform) :
    List (String × TargetSpecMap) → DependingOnState → List ModifyRequest →
    Except String (DependingOnState × List ModifyRequest)
  | [], st, q => .ok (st, q)
  | (tspec, sm) :: rest, st, q =>
    if tspec = platform.config then
      match processDepKinds package_set mdo package_id target use_dev_deps
          sm.dependencies sm.build_dependencies sm.dev_dependencies st q with
      | .error e => .error e
      | .ok (st, q) =>
        packageTargetBlocks package_set mdo package_id target use_dev_deps platform rest st q
    else
      match parse_cfg tspec with
      | some pred =>
        if cfgTest platform [] pred then
          match processDepKinds package_set mdo package_id target use_dev_deps
              sm.dependencies sm.build_dependencies sm.dev_dependencies st q with
          | .error e => .error e
          | .ok (st, q) =>
            packageTargetBlocks package_set mdo package_id target use_dev_deps platform rest st q
        else
          packageTargetBlocks package_set mdo package_id target use_dev_deps platform rest st q
      | none =>
        packageTargetBlocks package_set mdo package_id target use_dev_deps platform rest st q

/-- The EnablePackage arm of the worklist loop (resolve.rs lines 488-665).
A package id absent from the package set is skipped.  The enabled-feature
map is neither read nor written here. -/
def enablePackageProcess (ctx : ResolveCtx) (package_id : PackageId)
    (target : TargetPlatform) (use_dev_deps : Bool) (st : DependingOnState)
    (q : List ModifyRequest) : Except String (DependingOnState × List ModifyRequest) :=
  match lookupA ctx.packages package_id with
  | none => .ok (st, q)
  | some package =>
    match processDepKinds ctx.packages ctx.mdo package_id target use_dev_deps
        package.manifest.dependencies package.manifest.build_dependencies
        package.manifest.dev_dependencies st q with
    | .error e => .error e
    | .ok (st, q) =>
      packageTargetBlocks ctx.packages ctx.mdo package_id target use_dev_deps
        (platFor ctx target) package.manifest.target st q

/-! ## try_enable_dep (resolve.rs lines 677-766) -/

/-- Insertion of a depending-on edge into the role-selected set of a
DependingOn record, returning whether it was new. -/
def insertRole (e : DependingOn) (t : TargetPlatform) (d : PackageId) :
    Bool × DependingOn :=
  match t with
  | .Build =>
    let ins := insertSet e.build d
    (ins.1, { e with build := ins.2 })
  | .Host =>
    let ins := insertSet e.host d
    (ins.1, { e with host := ins.2 })

/-- Feature propagation closure of try_enable_dep (resolve.rs lines
700-722): default feature, explicit features, and the explicit
cross-package feature, all pushed for the given role. -/
def propagateFeatures (spec : DepSpec) (dep_pkg_id : PackageId)
    (dep_feature : Option String) (t : TargetPlatform)
    (q : List ModifyRequest) : List ModifyRequest :=
  let q := if spec.default_features then q ++ [ModifyRequest.enableFeature dep_pkg_id "default" t] else q
  let q := q ++ spec.features.map (fun f => ModifyRequest.enableFeature dep_pkg_id f t)
  match dep_feature with
  | some df => q ++ [ModifyRequest.enableFeature dep_pkg_id df t]
  | none => q

/-- try_enable_dep: the proc-macro flag is read by indexing into the
package set (panic — error — when absent) BEFORE the dep-spec lookup; when
the spec exists, the edge is inserted under both the current role and its
Build-shifted counterpart, each new insertion enqueues an EnablePackage
under the shifted role, and features are propagated for both shifted
roles. -/
def try_enable_dep (package_set : List (PackageId × Package))
    (package_id : PackageId) (target : TargetPlatform) (dep : String)
    (dep_pkg_id : PackageId) (dep_feature : Option String)
    (depending_on : List (PackageId × DependingOn)) (dep_specs : DepSpecMap)
    (target_shift : TargetPlatform → TargetPlatform)
    (q : List ModifyRequest) :
    Except String (List (PackageId × DependingOn) × List ModifyRequest) :=
  match lookupA package_set dep_pkg_id with
  | none => .error "index out of bounds: no entry found for key"
  | some dpkg =>
    let pm := dpkg.manifest.lib.procMacroFlag
    let shift := fun t =>
      let t := target_shift t
      if pm then TargetPlatform.to_build t else t
    match lookupA dep_specs dep with
    | none => .ok (depending_on, q)
    | some spec =>
      let entry := (lookupA depending_on package_id).getD ⟨[], []⟩
      let ins1 := insertRole entry target dep_pkg_id
      let q := if ins1.1 then q ++ [ModifyRequest.enablePackage dep_pkg_id (shift target) false] else q
      let ins2 := insertRole ins1.2 (TargetPlatform.to_build target) dep_pkg_id
      let q := if ins2.1 then q ++ [ModifyRequest.enablePackage dep_pkg_id (shift (TargetPlatform.to_build target)) false] else q
      let depending_on := insertA depending_on package_id ins2.2
      let q := propagateFeatures spec dep_pkg_id dep_feature (shift target) q
      let q := propagateFeatures spec dep_pkg_id dep_feature (shift (TargetPlatform.to_build target)) q
      .ok (depending_on, q)

/-! ## EnableFeature processing (resolve.rs lines 666-886) -/

/-- Leftmost match of the DEP_FEATURE regex, one group of non-slash
characters, a slash, then a nonempty remainder. -/
def splitDepFeatureAux (cs : List Char) : Option (String × String) :=
  let cs := cs.dropWhile (· = '/')
  let g1 := cs.takeWhile (· ≠ '/')
  match cs.drop g1.length with
  | '/' :: g2 =>
    if g1.isEmpty ∨ g2.isEmpty then none else some (String.mk g1, String.mk g2)
  | _ => none

def splitDepFeature (s : String) : Option (String × String) :=
  splitDepFeatureAux s.data

/-- The feature name recorded into the enabled-feature set: the dep part
of an owner-slash-name feature, otherwise the feature itself. -/
def featureKey (feature : String) : String :=
  match splitDepFeature feature with
  | some (d, _) => d
  | none => feature

/-- Resolution of a feature string (resolve.rs lines 767-779): an explicit
owner-slash-name pair, a bare name matching an alias-map key (an optional
dependency name), or a plain feature. -/
def resolveFeatureName (mdoEntry : List (String × PackageId)) (feature : String) :
    Option String × Option String :=
  match splitDepFeature feature with
  | some (d, f) => (some d, some f)
  | none =>
    if (lookupA mdoEntry feature).isSome then (some feature, none)
    else (none, none)

/-- Conditional target blocks during EnableFeature (resolve.rs lines
851-884): literal config match first, otherwise the parsed predicate is
evaluated against the role's platform with the package's currently enabled
features; only normal and build dep specs are processed, never dev. -/
def featureTargetBlocks (package_set : List (PackageId × Package))
    (package_id : PackageId) (target : TargetPlatform) (dep : String)
    (dep_pkg_id : PackageId) (dep_feature : Option String)
    (platform : Platform) (current_features : List String) :
    List (String × TargetSpecMap) → DependingOnState → List ModifyRequest →
    Except String (DependingOnState × List ModifyRequest)
  | [], st, q => .ok (st, q)
  | (tspec, sm) :: rest, st, q =>
    if tspec = platform.config then
      match try_enable_dep package_set package_id target dep dep_pkg_id dep_feature
          st.depending_on sm.dependencies TargetPlatform.to_host q with
      | .error e => .error e
      | .ok (m, q) =>
        match try_enable_dep package_set package_id target dep dep_pkg_id dep_feature
            st.build_depending_on sm.build_dependencies TargetPlatform.to_build q with
        | .error e => .error e
        | .ok (mb, q) =>
          featureTargetBlocks package_set package_id target dep dep_pkg_id dep_feature
            platform current_features rest ⟨m, mb, st.dev_depending_on⟩ q
    else
      match parse_cfg tspec with
      | some pred =>
        if cfgTest platform current_features pred then
          match try_enable_dep package_set package_id target dep dep_pkg_id dep_feature
              st.depending_on sm.dependencies TargetPlatform.to_host q with
          | .error e => .error e
          | .ok (m, q) =>
            match try_enable_dep package_set package_id target dep dep_pkg_id dep_feature
                st.build_depending_on sm.build_dependencies TargetPlatform.to_build q with
            | .error e => .error e
            | .ok (mb, q) =>
              featureTargetBlocks package_set package_id target dep dep_pkg_id dep_feature
                platform current_features rest ⟨m, mb, st.dev_depending_on⟩ q
        else
          featureTargetBlocks package_set package_id target dep dep_pkg_id dep_feature
            platform current_features rest st q
      | none =>
        featureTargetBlocks package_set package_id target dep dep_pkg_id dep_feature
          platform current_features rest st q

/-- The EnableFeature arm of the worklist loop (resolve.rs lines 666-886):
resolve the feature to an explicit owner-slash-name pair, a bare optional
dependency name, or a plain feature; record the resolved name into the
enabled-feature set (insertion result discarded); enqueue the feature's
implications UNCONDITIONALLY; then, when the feature resolves to a known
dependency, run try_enable_dep over the manifest and target-block dep
specs. -/
def enableFeatureProcess (ctx : ResolveCtx) (package_id : PackageId)
    (feature : String) (target : TargetPlatform) (st : DependingOnState)
    (fmap : FeatureMap) (q : List ModifyRequest) :
    Except String (DependingOnState × FeatureMap × List ModifyRequest) :=
  match lookupA ctx.packages package_id with
  | none => .ok (st, fmap, q)
  | some package =>
    let mdoEntry := (lookupA ctx.mdo package_id).getD []
    let depPair := resolveFeatureName mdoEntry feature
    let dep := depPair.1
    let dep_feature := depPair.2
    let dep_pkg_id :=
      match dep with
      | some d => lookupA mdoEntry d
      | none => none
    let fmap := updateA fmap package_id [] (fun s => (insertSet s (dep.getD feature)).2)
    let q :=
      match lookupA package.manifest.features feature with
      | some enabling => q ++ enabling.map (fun nf => ModifyRequest.enableFeature package_id nf target)
      | none => q
    let current_features := (lookupA fmap package_id).getD []
    match dep, dep_pkg_id with
    | some dep, some dep_pkg_id =>
      match try_enable_dep ctx.packages package_id target dep dep_pkg_id dep_feature
          st.depending_on package.manifest.dependencies TargetPlatform.to_host q with
      | .error e => .error e
      | .ok (m, q) =>
        match try_enable_dep ctx.packages package_id target dep dep_pkg_id dep_feature
            st.build_depending_on package.manifest.build_dependencies TargetPlatform.to_build q with
        | .error e => .error e
        | .ok (mb, q) =>
          match featureTargetBlocks ctx.packages package_id target dep dep_pkg_id dep_feature
              (platFor ctx target) current_features package.manifest.target
              ⟨m, mb, st.dev_depending_on⟩ q with
          | .error e => .error e
          | .ok (st, q) => .ok (st, fmap, q)
    | _, _ => .ok (st, fmap, q)

/-! ## The worklist loop (resolve.rs lines 457-920) -/

/-- Processing of a single popped request. -/
def resolveStep1 (ctx : ResolveCtx) (r : ModifyRequest) (st : ResolveState) :
    Except String ResolveState :=
  match r with
  | .enablePackage package_id target use_dev_deps =>
    match enablePackageProcess ctx package_id target use_dev_deps st.dos st.req_queue with
    | .error e => .error e
    | .ok (dos, q) => .ok ⟨q, dos, st.features_enabled⟩
  | .enableFeature package_id feature target =>
    match enableFeatureProcess ctx package_id feature target st.dos st.features_enabled st.req_queue with
    | .error e => .error e
    | .ok (dos, fmap, q) => .ok ⟨q, dos, fmap⟩

/-- Fuel-indexed breadth-first worklist iteration: ok none when the fuel is
exhausted with a nonempty queue, ok (some final) when the queue empties. -/
def runResolve (ctx : ResolveCtx) : Nat → ResolveState → Except String (Option ResolveState)
  | 0, _ => .ok none
  | fuel + 1, st =>
    match st.req_queue with
    | [] => .ok (some st)
    | r :: rest =>
      match resolveStep1 ctx r { st with req_queue := rest } with
      | .error e => .error e
      | .ok st2 => runResolve ctx fuel st2

/-- The initial queue (resolve.rs lines 457-480): one EnablePackage per
initial request followed by one EnableFeature per requested feature, all
carrying the request's (skipped, defaulted) role. -/
def initialQueue (initial_requests : List PackageRequest) : List ModifyRequest :=
  initial_requests.foldr
    (fun r acc =>
      ModifyRequest.enablePackage r.package_id r.target r.use_dev_deps ::
        (r.features.map (fun f => ModifyRequest.enableFeature r.package_id f r.target) ++ acc))
    []

/-! ## Output shaping (resolve.rs lines 890-920) -/

/-- BTreeMap collected from an iterator of key-value pairs: sequential
insertion, later values for the same key overwrite earlier ones. -/
def collectMap (l : List (String × List PackageId)) : List (String × List PackageId) :=
  l.foldl (fun m kv => insertA m kv.1 kv.2) []

/-- The per-package transformer (resolve.rs lines 890-898): the two role
sets are keyed by the build and host platform config strings. -/
def transformer (build_config host_config : String)
    (x : PackageId × DependingOn) : PackageId × List (String × List PackageId) :=
  (x.1, collectMap [(build_config, x.2.build), (host_config, x.2.host)])

structure ResolveResponse where
  dependencies : List (PackageId × List (String × List PackageId))
  build_dependencies : List (PackageId × List (String × List PackageId))
  dev_dependencies : List (PackageId × List (String × List PackageId))
  features : FeatureMap
deriving DecidableEq

def mkResponse (ctx : ResolveCtx) (st : ResolveState) : ResolveResponse :=
  let tf := transformer ctx.build_platform.config ctx.host_platform.config
  { dependencies := st.dos.depending_on.map tf,
    build_dependencies := st.dos.build_depending_on.map tf,
    dev_dependencies := st.dos.dev_depending_on.map tf,
    features := st.features_enabled }

/-- Top-level resolve, fuel-indexed. -/
def resolve (req : ResolveRequest) (fuel : Nat) : Except String (Option ResolveResponse) :=
  let ctx := mkCtx req.build_platform req.host_platform req.packages
  match runResolve ctx fuel ⟨initialQueue req.initial_requests, ⟨[], [], []⟩, []⟩ with
  | .error e => .error e
  | .ok none => .ok none
  | .ok (some st) => .ok (some (mkResponse ctx st))

/-! ## Optionality / condition engine (src/main.rs) -/

inductive DepKind
  | Normal
  | Build
  | Development
deriving DecidableEq

abbrev PackageName := String

/-- Optionality (main.rs lines 491-498): Required, or Optional with the
set of root packages that always require the item and the set of
(root package, feature) pairs that activate it. -/
inductive Optionality
  | Required
  | Optional (required_by_pkgs : List PackageName)
      (activated_by_features : List (PackageName × String))
deriving DecidableEq

/-- Optionality::activated_by (main.rs lines 510-520): only an Optional
item changes, and the pair is suppressed when the root is already in
required_by_pkgs. -/
def Optionality.activated_by (o : Optionality) (rf : PackageName × String) : Optionality :=
  match o with
  | .Required => .Required
  | .Optional rb ab =>
    if rf.1 ∈ rb then .Optional rb ab
    else .Optional rb (insertSet ab rf).2

/-- Optionality::required_by (main.rs lines 522-529). -/
def Optionality.required_by (o : Optionality) (pkg_name : PackageName) : Optionality :=
  match o with
  | .Required => .Required
  | .Optional rb ab => .Optional (insertSet rb pkg_name).2 ab

/-- Modelled from the spec: the boolean expression type of the condition
engine (the expr module is absent from src): constant true, a single
membership clause, or a disjunction of clauses (BoolExpr::ors). -/
inductive BoolExpr
  | True
  | Single (s : String)
  | Or (xs : List BoolExpr)

def BoolExpr.ors (xs : List BoolExpr) : BoolExpr := BoolExpr.Or xs

def displayRootFeature (rf : PackageName × String) : String :=
  rf.1 ++ "/" ++ rf.2

/-- Optionality::to_expr (main.rs lines 531-557): Required renders as the
constant true; Optional renders as the disjunction of one clause per
activated_by entry followed by one clause per required_by entry. -/
def Optionality.to_expr (o : Optionality) (root_features_var : String) : BoolExpr :=
  match o with
  | .Required => BoolExpr.True
  | .Optional rb ab =>
    BoolExpr.ors
      (ab.map (fun rf => BoolExpr.Single (root_features_var ++ " ? \"" ++ displayRootFeature rf ++ "\"")) ++
        rb.map (fun p => BoolExpr.Single (root_features_var ++ " ? \"" ++ p ++ "\"")))

structure ResolvedDependency where
  extern_name : String
  optionality : Optionality
  platforms : Option (List String)
deriving DecidableEq

structure ResolvedPackage where
  deps : List ((PackageId × DepKind) × ResolvedDependency)
  features : List (String × Optionality)
deriving DecidableEq

/-- all_eq (main.rs lines 590-602). -/
def allEq : List Optionality → Bool
  | [] => true
  | x :: xs => xs.all (fun y => y = x)

/-- iter_optionality_mut (main.rs lines 474-481): optionalities of all
non-dev dependencies followed by those of all features. -/
def iterOptionality (rpkg : ResolvedPackage) : List Optionality :=
  (rpkg.deps.filter (fun e => e.1.2 ≠ DepKind.Development)).map (fun e => e.2.optionality) ++
    rpkg.features.map (fun kv => kv.2)

/-- Every optionality of the package, dev dependencies included, in
storage order (dependencies then features). -/
def allOptionality (rpkg : ResolvedPackage) : List Optionality :=
  rpkg.deps.map (fun e => e.2.optionality) ++ rpkg.features.map (fun kv => kv.2)

/-- The coverage-promotion test of simplify_optionality (main.rs lines
241-252): an Optional whose required_by set has full size is promoted. -/
def promoteOpt (n_root_pkgs : Nat) (o : Optionality) : Optionality :=
  match o with
  | .Required => .Required
  | .Optional rb ab =>
    if rb.length = n_root_pkgs then .Required else .Optional rb ab

/-- First pass of simplify_optionality: coverage promotion over
iter_optionality_mut, i.e. non-dev dependencies and features. -/
def simplifyPass1 (n_root_pkgs : Nat) (rpkg : ResolvedPackage) : ResolvedPackage :=
  { deps := rpkg.deps.map (fun e =>
      if e.1.2 = DepKind.Development then e
      else (e.1, { e.2 with optionality := promoteOpt n_root_pkgs e.2.optionality })),
    features := rpkg.features.map (fun kv => (kv.1, promoteOpt n_root_pkgs kv.2)) }

/-- Second pass of simplify_optionality (main.rs lines 254-258): dev
dependencies are forced Required. -/
def simplifyPass2 (rpkg : ResolvedPackage) : ResolvedPackage :=
  { rpkg with deps := rpkg.deps.map (fun e =>
      if e.1.2 = DepKind.Development then (e.1, { e.2 with optionality := Optionality.Required })
      else e) }

/-- Third pass of simplify_optionality (main.rs lines 260-264): when every
item of iter_optionality_mut is identical, all of them collapse to
Required. -/
def simplifyPass3 (rpkg : ResolvedPackage) : ResolvedPackage :=
  if allEq (iterOptionality rpkg) then
    { deps := rpkg.deps.map (fun e =>
        if e.1.2 = DepKind.Development then e
        else (e.1, { e.2 with optionality := Optionality.Required })),
      features := rpkg.features.map (fun kv => (kv.1, Optionality.Required)) }
  else rpkg

/-- simplify_optionality for one package (main.rs lines 236-266). -/
def simplifyPkg (n_root_pkgs : Nat) (rpkg : ResolvedPackage) : ResolvedPackage :=
  simplifyPass3 (simplifyPass2 (simplifyPass1 n_root_pkgs rpkg))

/-- simplify_optionality over all packages of the run. -/
def simplify_optionality (rpkgs : List ResolvedPackage) (n_root_pkgs : Nat) :
    List ResolvedPackage :=
  rpkgs.map (simplifyPkg n_root_pkgs)

/-- Boolean order on optionalities: Required is top, Optional entries are
ordered by inclusion of both recorded sets. -/
def Optionality.leB : Optionality → Optionality → Bool
  | _, .Required => true
  | .Required, .Optional _ _ => false
  | .Optional rb ab, .Optional rb2 ab2 =>
    rb.all (fun x => x ∈ rb2) && ab.all (fun x => x ∈ ab2)

/-- Property of every request enqueued on behalf of a dependency
activation: the dependency's package is present in the package set, a
proc-macro dependency is always enqueued under the Build role, and a
Build-role requester only ever enqueues Build-role requests. -/
def depPush (ps : List (PackageId × Package)) (target : TargetPlatform)
    (x : ModifyRequest) : Prop :=
  ∃ dpkg, lookupA ps x.pid = some dpkg ∧
    (dpkg.manifest.lib.procMacroFlag = true → x.role = TargetPlatform.Build) ∧
    (target = TargetPlatform.Build → x.role = TargetPlatform.Build)

/-! ## Concrete example data -/

def hostPlat : Platform :=
  { config := "x86_64-unknown-linux-gnu", arch := some "x86_64",
    os := some Os.LINUX, endianness := some Endianness.Little,
    env := some Env.Gnu, pointer_width := some PointerWidth.I64,
    vendor := some "unknown" }

def buildPlat : Platform :=
  { config := "aarch64-apple-darwin", arch := some "aarch64",
    os := some Os.MACOS, endianness := some Endianness.Little,
    env := some Env.Gnu, pointer_width := some PointerWidth.I64,
    vendor := some "apple" }

def emptyManifest : Manifest :=
  { lib := ⟨false⟩, dependencies := [], build_dependencies := [],
    dev_dependencies := [], target := [], features := [] }

def specDefault : DepSpec :=
  { optional := false, features := [], default_features := true }

/-- A proc-macro package with no dependencies. -/
def pkgM : Package :=
  { dependencies := [], manifest := { emptyManifest with lib := ⟨true⟩ } }

/-- A plain package with no dependencies. -/
def pkgPlain : Package :=
  { dependencies := [], manifest := emptyManifest }

/-- A package with one non-optional normal dependency on the proc-macro
package m. -/
def pkgP1 : Package :=
  { dependencies := [⟨"m", ["m"]⟩],
    manifest := { emptyManifest with dependencies := [("m", specDefault)] } }

def c1Ctx : ResolveCtx := mkCtx buildPlat hostPlat [("m", pkgM), ("p", pkgP1)]

/-- A package whose feature a implies itself. -/
def pkgP2 : Package :=
  { dependencies := [],
    manifest := { emptyManifest with features := [("a", ["a"])] } }

def c2Ctx : ResolveCtx := mkCtx buildPlat hostPlat [("p", pkgP2)]

def c2St0 : ResolveState :=
  ⟨initialQueue [PackageRequest.deserialize "p" ["a"] false], ⟨[], [], []⟩, []⟩

/-- The state reached after two steps on c2St0: processing its only queue
entry reproduces the state exactly. -/
def c2StFix : ResolveState :=
  ⟨[ModifyRequest.enableFeature "p" "a" .Host],
    ⟨[("p", ⟨[], []⟩)], [("p", ⟨[], []⟩)], []⟩, [("p", ["a"])]⟩

/-- A package with one non-optional normal dependency whose alias entry
points to a package id absent from the package set. -/
def pkgP3 : Package :=
  { dependencies := [⟨"ghost", ["g"]⟩],
    manifest := { emptyManifest with dependencies := [("g", specDefault)] } }

/-- A package whose feature a implies feature b. -/
def pkgP4 : Package :=
  { dependencies := [],
    manifest := { emptyManifest with features := [("a", ["b"])] } }

def c4Ctx : ResolveCtx := mkCtx buildPlat hostPlat [("p", pkgP4)]

/-- A package with a conditional target block keyed by a feature
predicate, holding a non-optional normal dependency on e. -/
def pkgP5 : Package :=
  { dependencies := [⟨"e", ["e"]⟩],
    manifest := { emptyManifest with
      target := [("cfg(feature = \"x\")", ⟨[("e", specDefault)], [], []⟩)] } }

def c5Ctx : ResolveCtx := mkCtx buildPlat hostPlat [("e", pkgPlain), ("p", pkgP5)]

def c5St : ResolveState := ⟨[], ⟨[], [], []⟩, [("p", ["x"])]⟩

/-- A package with one OPTIONAL normal dependency on the plain package d,
no build dependencies and no proc-macro anywhere. -/
def pkgP10 : Package :=
  { dependencies := [⟨"d", ["d"]⟩],
    manifest := { emptyManifest with
      dependencies := [("d", { optional := true, features := [], default_features := true })] } }

def c10Ctx : ResolveCtx := mkCtx buildPlat hostPlat [("d", pkgPlain), ("p", pkgP10)]

/-- The state after processing the initial EnablePackage of c10: the
feature request for d is the only queue entry left out (popped). -/
def c10St1 : ResolveState :=
  ⟨[], ⟨[("p", ⟨[], []⟩)], [("p", ⟨[], []⟩)], []⟩, []⟩

def c10St2 : ResolveState :=
  ⟨[ModifyRequest.enablePackage "d" .Host false,
    ModifyRequest.enablePackage "d" .Build false,
    ModifyRequest.enableFeature "d" "default" .Host,
    ModifyRequest.enableFeature "d" "default" .Build],
    ⟨[("p", ⟨["d"], ["d"]⟩)], [("p", ⟨[], []⟩)], []⟩, [("p", ["d"])]⟩

/-- Example resolved package for the optionality engine: one normal
dependency and one feature, both Optional and required by the single
root r. -/
def rpkgEx : ResolvedPackage :=
  { deps := [(("q", DepKind.Normal), ⟨"q", Optionality.Optional ["r"] [], none⟩)],
    features := [("f", Optionality.Optional ["r"] [("r", "g")])] }

/-! # Helper lemmas -/

theorem to_build_eq (t : TargetPlatform) : t.to_build = TargetPlatform.Build := by
  cases t <;> rfl

theorem insertA_self {K V : Type} [DecidableEq K] (m : List (K × V)) (k : K) (v : V)
    (h : lookupA m k = some v) : insertA m k v = m := by
  induction m with
  | nil => simp [lookupA] at h
  | cons kv rest ih =>
    obtain ⟨k1, v1⟩ := kv
    by_cases hk : k = k1
    · subst hk
      simp [lookupA] at h
      simp [insertA, h]
    · simp [lookupA, hk] at h
      simp [insertA, hk, ih h]

theorem mem_ite_append {A : Type} {c : Prop} [Decidable c] {x : A} {q l : List A}
    (h : x ∈ (if c then q ++ l else q)) : x ∈ q ∨ x ∈ l := by
  split at h
  · exact List.mem_append.mp h
  · exact Or.inl h

theorem forall₂_map_map {A B C : Type} (R : B → C → Prop)
    (f : A → B) (g : A → C) (l : List A) (h : ∀ a ∈ l, R (f a) (g a)) :
    List.Forall₂ R (l.map f) (l.map g) := by
  induction l with
  | nil => simp
  | cons a rest ih =>
    simp only [List.map_cons]
    exact List.Forall₂.cons (h a (List.mem_cons_self a rest))
      (ih (fun b hb => h b (List.mem_cons_of_mem a hb)))

/-! # Claim theorems -/

/-- C2 (code_bug): the worklist loop does NOT terminate for every input.
On the package p whose feature a implies itself, with the initial request
enabling feature a, the queue never empties: the EnableFeature arm
discards the result of the enabled-feature set insertion and re-enqueues
the implications of a unconditionally, so the same request reproduces
itself forever, for every amount of fuel. -/
theorem c2_nonterminating : ∀ fuel, runResolve c2Ctx fuel c2St0 = Except.ok none := by
  have hstep : ∀ n, runResolve c2Ctx (n + 1) c2StFix = runResolve c2Ctx n c2StFix :=
    fun _ => rfl
  have hfix : ∀ n, runResolve c2Ctx n c2StFix = Except.ok none := by
    intro n
    induction n with
    | zero => rfl
    | succ k ih => rw [hstep]; exact ih
  intro fuel
  match fuel with
  | 0 => rfl
  | 1 => rfl
  | n + 2 =>
    have h : runResolve c2Ctx (n + 2) c2St0 = runResolve c2Ctx n c2StFix := rfl
    rw [h]
    exact hfix n

/-- Witness for C2: at fuel 5 the run has not terminated. -/
theorem c2_nonterminating_witness : runResolve c2Ctx 5 c2St0 = Except.ok none :=
  c2_nonterminating 5

/-- C3 counterexample: a dependency whose alias entry points to a package
id (ghost) absent from the supplied package set makes resolve abort with
an out-of-bounds panic (the proc-macro flag is read by indexing into the
package set), refuting the claim that no dangling package-id reference
causes resolve to abort. -/
theorem c3_counterexample :
    resolve ⟨buildPlat, hostPlat, [("p", pkgP3)], [PackageRequest.deserialize "p" [] false]⟩ 5 =
      Except.error "index out of bounds: no entry found for key" := rfl

/-- C3 (amended): a REQUEST whose target package id is absent from the
package set is silently skipped: processing it returns the popped state
unchanged. -/
theorem c3_missing_package_skipped (ctx : ResolveCtx) (r : ModifyRequest)
    (st : ResolveState) (habsent : lookupA ctx.packages r.pid = none) :
    resolveStep1 ctx r st = Except.ok st := by
  cases r with
  | enablePackage p t u =>
    have hp : lookupA ctx.packages p = none := habsent
    simp [resolveStep1, enablePackageProcess, hp]
  | enableFeature p f t =>
    have hp : lookupA ctx.packages p = none := habsent
    simp [resolveStep1, enableFeatureProcess, hp]

/-- Witness for the amended C3: a concrete request against an empty
package set is skipped. -/
theorem c3_missing_package_skipped_witness :
    resolveStep1 (mkCtx buildPlat hostPlat []) (ModifyRequest.enablePackage "x" .Host false)
      ⟨[], ⟨[], [], []⟩, []⟩ = Except.ok ⟨[], ⟨[], [], []⟩, []⟩ :=
  c3_missing_package_skipped (mkCtx buildPlat hostPlat [])
    (ModifyRequest.enablePackage "x" .Host false) ⟨[], ⟨[], [], []⟩, []⟩ rfl

/-- C4 counterexample: processing EnableFeature(p, Host, a) while a is
already in p's enabled-feature set leaves the feature set unchanged but
re-enqueues a's implication b — the queue is not empty afterwards, so the
processing is not a no-op as claimed. -/
theorem c4_counterexample :
    resolveStep1 c4Ctx (ModifyRequest.enableFeature "p" "a" .Host)
        ⟨[], ⟨[], [], []⟩, [("p", ["a"])]⟩ =
      Except.ok ⟨[ModifyRequest.enableFeature "p" "b" .Host], ⟨[], [], []⟩, [("p", ["a"])]⟩ ∧
    featureKey "a" ∈ (lookupA [(("p" : PackageId), ["a"])] "p").getD [] :=
  ⟨rfl, by decide⟩

/-- C5 counterexample: package p has feature x enabled and a conditional
target block keyed by a feature-x predicate holding a non-optional
dependency on e; the predicate is true under p's current feature set, yet
processing EnablePackage(p, Host) records no depending-on edge at all,
because the EnablePackage arm evaluates predicates with an empty feature
list rather than the package's enabled features. -/
theorem c5_counterexample :
    resolveStep1 c5Ctx (ModifyRequest.enablePackage "p" .Host false) c5St =
      Except.ok ⟨[], ⟨[("p", ⟨[], []⟩)], [("p", ⟨[], []⟩)], []⟩, [("p", ["x"])]⟩ ∧
    parse_cfg "cfg(feature = \"x\")" = some (CfgExpr.atom "feature" (some "x")) ∧
    cfgTest hostPlat ((lookupA c5St.features_enabled "p").getD [])
      (CfgExpr.atom "feature" (some "x")) = true :=
  ⟨rfl, rfl, rfl⟩

/-- C8 (code_bug): converting each recognized OS name into the Os bit-set
and displaying it round-trips for seven of the eight names, but the
Display implementation has no arm for OPENBSD, so "openbsd" converts to a
nonempty named bit pattern that displays as the EMPTY string. -/
theorem c8_openbsd_display :
    osFromStr "openbsd" = Os.OPENBSD ∧
    osDisplay (osFromStr "openbsd") = "" ∧
    Os.OPENBSD ≠ 0 ∧
    osDisplay (osFromStr "linux") = "linux" ∧
    osDisplay (osFromStr "windows") = "windows" ∧
    osDisplay (osFromStr "android") = "android" ∧
    osDisplay (osFromStr "ios") = "ios" ∧
    osDisplay (osFromStr "freebsd") = "freebsd" ∧
    osDisplay (osFromStr "netbsd") = "netbsd" ∧
    osDisplay (osFromStr "macos") = "macos" := by
  refine ⟨rfl, rfl, by decide, rfl, rfl, rfl, rfl, rfl, rfl, rfl⟩

/-- C9: the per-package transformer keys the two role sets by the build
and host platform config strings; when the two config strings are equal,
collecting into a map collapses to a single entry holding only the
host-role set (the later insertion overwrites), so the build-role set is
absent from the output. -/
theorem c9_transformer (build_config host_config : String) (pid : PackageId)
    (don : DependingOn) :
    (host_config = build_config →
      transformer build_config host_config (pid, don) = (pid, [(host_config, don.host)])) ∧
    (host_config ≠ build_config →
      transformer build_config host_config (pid, don) =
        (pid, [(build_config, don.build), (host_config, don.host)])) := by
  constructor
  · intro h
    subst h
    simp [transformer, collectMap, insertA]
  · intro h
    simp [transformer, collectMap, insertA, h]

/-- Witness for C9: a non-cross build (equal config strings) yields the
single host entry; a cross build yields both entries. -/
theorem c9_transformer_witness :
    transformer "c" "c" ("p", ⟨["b"], ["h"]⟩) = ("p", [("c", ["h"])]) ∧
    transformer "bc" "hc" ("p", ⟨["b"], ["h"]⟩) =
      ("p", [("bc", ["b"]), ("hc", ["h"])]) :=
  ⟨(c9_transformer "c" "c" "p" ⟨["b"], ["h"]⟩).1 rfl,
    (c9_transformer "bc" "hc" "p" ⟨["b"], ["h"]⟩).2 (by decide)⟩

/-- C10 counterexample: package p has an optional normal dependency d
(no proc-macro, no build-dependencies anywhere); processing
EnableFeature(p, Host, d) enqueues EnablePackage(d, Build) — a Build-role
request that arises from the dual-role edge recording of optional
dependency enabling, not from build-dependency or proc-macro shifting. -/
theorem c10_counterexample :
    resolveStep1 c10Ctx (ModifyRequest.enableFeature "p" "d" .Host) c10St1 =
      Except.ok c10St2 ∧
    ModifyRequest.enablePackage "d" .Build false ∈ c10St2.req_queue ∧
    pkgPlain.manifest.lib.procMacroFlag = false ∧
    pkgP10.manifest.lib.procMacroFlag = false ∧
    pkgP10.manifest.build_dependencies = [] ∧
    pkgPlain.manifest.build_dependencies = [] ∧
    pkgP10.manifest.target = [] ∧
    pkgPlain.manifest.target = [] :=
  ⟨rfl, by decide, rfl, rfl, rfl, rfl, rfl, rfl⟩

/-- C10 (amended): the role of a PackageRequest cannot be supplied in the
input — deserialization skips the field and defaults it to Host — so every
initial EnablePackage and EnableFeature entering the worklist carries the
Host role. -/
theorem c10_initial_requests_host (l : List (PackageId × List String × Bool)) :
    ∀ r ∈ initialQueue (l.map (fun t => PackageRequest.deserialize t.1 t.2.1 t.2.2)),
      r.role = TargetPlatform.Host := by
  induction l with
  | nil => intro r hr; simp [initialQueue] at hr
  | cons a rest ih =>
    intro r hr
    simp only [List.map_cons, initialQueue, List.foldr_cons] at hr
    rcases List.mem_cons.mp hr with h | h
    · subst h; rfl
    · rcases List.mem_append.mp h with h2 | h2
      · rcases List.mem_map.mp h2 with ⟨f, _, hf⟩
        subst hf; rfl
      · exact ih r h2

/-- Witness for the amended C10: a concrete initial request list yields
only Host-role queue entries. -/
theorem c10_initial_requests_host_witness :
    ModifyRequest.role (ModifyRequest.enableFeature "a" "f" .Host) = TargetPlatform.Host :=
  c10_initial_requests_host [("a", ["f"], false)]
    (ModifyRequest.enableFeature "a" "f" .Host) (by decide)

theorem edl_pushes (ps : List (PackageId × Package)) (mdoE : List (String × PackageId))
    (sh : TargetPlatform) :
    ∀ (ds : List (String × DepSpec)) (dset : List PackageId) (q : List ModifyRequest)
      (s2 : List PackageId) (q2 : List ModifyRequest),
      enable_dep_loop ps mdoE sh ds dset q = Except.ok (s2, q2) →
      ∀ x ∈ q2, x ∈ q ∨ ∃ dpkg, lookupA ps x.pid = some dpkg ∧
        x.role = (if dpkg.manifest.lib.procMacroFlag then TargetPlatform.Build else sh) := by
  intro ds
  induction ds with
  | nil =>
    intro dset q s2 q2 h x hx
    simp only [enable_dep_loop] at h
    cases h
    exact Or.inl hx
  | cons hd rest ih =>
    intro dset q s2 q2 h x hx
    obtain ⟨nm, spec⟩ := hd
    simp only [enable_dep_loop] at h
    split at h
    · exact ih dset q s2 q2 h x hx
    · split at h
      · exact ih dset q s2 q2 h x hx
      · rename_i d hmdo
        split at h
        · simp at h
        · rename_i dpkg hps
          rcases ih _ _ s2 q2 h x hx with hq | hp
          · rcases List.mem_append.mp hq with hq | hmap
            · rcases mem_ite_append hq with hq1 | hdef
              · rcases mem_ite_append hq1 with hqq | hep
                · exact Or.inl hqq
                · have hxe : x = ModifyRequest.enablePackage d
                      (if dpkg.manifest.lib.procMacroFlag then sh.to_build else sh) false := by
                    simpa using hep
                  subst hxe
                  refine Or.inr ⟨dpkg, ?_, ?_⟩
                  · simpa [ModifyRequest.pid] using hps
                  · simp [ModifyRequest.role, to_build_eq]
              · have hxe : x = ModifyRequest.enableFeature d "default"
                    (if dpkg.manifest.lib.procMacroFlag then sh.to_build else sh) := by
                  simpa using hdef
                subst hxe
                refine Or.inr ⟨dpkg, ?_, ?_⟩
                · simpa [ModifyRequest.pid] using hps
                · simp [ModifyRequest.role, to_build_eq]
            · rcases List.mem_map.mp hmap with ⟨f, _, hxe⟩
              subst hxe
              refine Or.inr ⟨dpkg, ?_, ?_⟩
              · simpa [ModifyRequest.pid] using hps
              · simp [ModifyRequest.role, to_build_eq]
          · exact Or.inr hp

theorem enable_dep_pushes (ps : List (PackageId × Package)) (pid : PackageId)
    (target : TargetPlatform) (ds : DepSpecMap)
    (mdo : List (PackageId × List (String × PackageId)))
    (m : List (PackageId × DependingOn)) (ts : TargetPlatform → TargetPlatform)
    (q : List ModifyRequest) (m2 : List (PackageId × DependingOn))
    (q2 : List ModifyRequest) (hts : ts TargetPlatform.Build = TargetPlatform.Build)
    (h : enable_dep ps pid target ds mdo m ts q = Except.ok (m2, q2)) :
    ∀ x ∈ q2, x ∈ q ∨ depPush ps target x := by
  intro x hx
  have key : ∀ s2 qq2, enable_dep_loop ps ((lookupA mdo pid).getD []) (ts target) ds
      (((lookupA m pid).getD ⟨[], []⟩).host) q = Except.ok (s2, qq2) ∨
      enable_dep_loop ps ((lookupA mdo pid).getD []) (ts target) ds
      (((lookupA m pid).getD ⟨[], []⟩).build) q = Except.ok (s2, qq2) →
      qq2 = q2 →
      x ∈ q ∨ depPush ps target x := by
    intro s2 qq2 hloop hqq
    rw [hqq] at hloop
    have hed : ∀ x2 ∈ q2, x2 ∈ q ∨ ∃ dpkg, lookupA ps x2.pid = some dpkg ∧
        x2.role = (if dpkg.manifest.lib.procMacroFlag then TargetPlatform.Build else ts target) := by
      rcases hloop with hl | hl
      · exact edl_pushes ps _ _ ds _ q s2 q2 hl
      · exact edl_pushes ps _ _ ds _ q s2 q2 hl
    rcases hed x hx with hq | ⟨dpkg, hlk, hrole⟩
    · exact Or.inl hq
    · refine Or.inr ⟨dpkg, hlk, ?_, ?_⟩
      · intro hpm
        rw [hrole, hpm]
        simp
      · intro htb
        subst htb
        rw [hrole, hts]
        cases dpkg.manifest.lib.procMacroFlag <;> simp
  simp only [enable_dep] at h
  split at h
  · split at h
    · simp at h
    · rename_i s qq hloop
      have hq2 : qq = q2 := by
        cases h
        rfl
      exact key s qq (Or.inl hloop) hq2
  · split at h
    · simp at h
    · rename_i s qq hloop
      have hq2 : qq = q2 := by
        cases h
        rfl
      exact key s qq (Or.inr hloop) hq2

theorem processDepKinds_pushes (ps : List (PackageId × Package))
    (mdo : List (PackageId × List (String × PackageId))) (pid : PackageId)
    (target : TargetPlatform) (ud : Bool) (deps bdeps ddeps : DepSpecMap)
    (st : DependingOnState) (q : List ModifyRequest) (st2 : DependingOnState)
    (q2 : List ModifyRequest)
    (h : processDepKinds ps mdo pid target ud deps bdeps ddeps st q = Except.ok (st2, q2)) :
    ∀ x ∈ q2, x ∈ q ∨ depPush ps target x := by
  intro x hx
  unfold processDepKinds at h
  split at h
  · simp at h
  · rename_i m qa ha
    split at h
    · simp at h
    · rename_i mb qb hb
      split at h
      · split at h
        · simp at h
        · rename_i md qd hd
          have hxq : x ∈ qd := by
            have hq2 : qd = q2 := by
              cases h
              rfl
            rw [hq2]
            exact hx
          rcases enable_dep_pushes ps pid target ddeps mdo st.dev_depending_on
              TargetPlatform.to_host qb md qd rfl hd x hxq with hq | hp
          · rcases enable_dep_pushes ps pid target bdeps mdo st.build_depending_on
                TargetPlatform.to_build qa mb qb rfl hb x hq with hq | hp
            · exact enable_dep_pushes ps pid target deps mdo st.depending_on
                TargetPlatform.to_host q m qa rfl ha x hq
            · exact Or.inr hp
          · exact Or.inr hp
      · have hxq : x ∈ qb := by
          have hq2 : qb = q2 := by
            cases h
            rfl
          rw [hq2]
          exact hx
        rcases enable_dep_pushes ps pid target bdeps mdo st.build_depending_on
            TargetPlatform.to_build qa mb qb rfl hb x hxq with hq | hp
        · exact enable_dep_pushes ps pid target deps mdo st.depending_on
            TargetPlatform.to_host q m qa rfl ha x hq
        · exact Or.inr hp

theorem packageTargetBlocks_pushes (ps : List (PackageId × Package))
    (mdo : List (PackageId × List (String × PackageId))) (pid : PackageId)
    (target : TargetPlatform) (ud : Bool) (plat : Platform) :
    ∀ (blocks : List (String × TargetSpecMap)) (st : DependingOnState)
      (q : List ModifyRequest) (st2 : DependingOnState) (q2 : List ModifyRequest),
      packageTargetBlocks ps mdo pid target ud plat blocks st q = Except.ok (st2, q2) →
      ∀ x ∈ q2, x ∈ q ∨ depPush ps target x := by
  intro blocks
  induction blocks with
  | nil =>
    intro st q st2 q2 h x hx
    simp only [packageTargetBlocks] at h
    cases h
    exact Or.inl hx
  | cons hd rest ih =>
    intro st q st2 q2 h x hx
    obtain ⟨tspec, sm⟩ := hd
    simp only [packageTargetBlocks] at h
    split at h
    · split at h
      · simp at h
      · rename_i stm qm hm
        rcases ih stm qm st2 q2 h x hx with hq | hp
        · exact processDepKinds_pushes ps mdo pid target ud sm.dependencies
            sm.build_dependencies sm.dev_dependencies st q stm qm hm x hq
        · exact Or.inr hp
    · split at h
      · split at h
        · split at h
          · simp at h
          · rename_i stm qm hm
            rcases ih stm qm st2 q2 h x hx with hq | hp
            · exact processDepKinds_pushes ps mdo pid target ud sm.dependencies
                sm.build_dependencies sm.dev_dependencies st q stm qm hm x hq
            · exact Or.inr hp
        · exact ih st q st2 q2 h x hx
      · exact ih st q st2 q2 h x hx

theorem enablePackageProcess_pushes (ctx : ResolveCtx) (pid : PackageId)
    (target : TargetPlatform) (ud : Bool) (st : DependingOnState)
    (q : List ModifyRequest) (st2 : DependingOnState) (q2 : List ModifyRequest)
    (h : enablePackageProcess ctx pid target ud st q = Except.ok (st2, q2)) :
    ∀ x ∈ q2, x ∈ q ∨ depPush ctx.packages target x := by
  intro x hx
  unfold enablePackageProcess at h
  split at h
  · cases h
    exact Or.inl hx
  · rename_i package hpkg
    split at h
    · simp at h
    · rename_i stm qm hm
      rcases packageTargetBlocks_pushes ctx.packages ctx.mdo pid target ud
          (platFor ctx target) package.manifest.target stm qm st2 q2 h x hx with hq | hp
      · exact processDepKinds_pushes ctx.packages ctx.mdo pid target ud
          package.manifest.dependencies package.manifest.build_dependencies
          package.manifest.dev_dependencies st q stm qm hm x hq
      · exact Or.inr hp

theorem mem_propagate (spec : DepSpec) (dpid : PackageId) (df : Option String)
    (t : TargetPlatform) (q : List ModifyRequest) (x : ModifyRequest)
    (h : x ∈ propagateFeatures spec dpid df t q) :
    x ∈ q ∨ (x.pid = dpid ∧ x.role = t) := by
  unfold propagateFeatures at h
  have base : ∀ y : ModifyRequest,
      y ∈ (if spec.default_features then q ++ [ModifyRequest.enableFeature dpid "default" t] else q) ++
        spec.features.map (fun f => ModifyRequest.enableFeature dpid f t) →
      y ∈ q ∨ (y.pid = dpid ∧ y.role = t) := by
    intro y hy
    rcases List.mem_append.mp hy with hy | hy
    · rcases mem_ite_append hy with hy | hy
      · exact Or.inl hy
      · have hye : y = ModifyRequest.enableFeature dpid "default" t := by
          simpa using hy
        subst hye
        exact Or.inr ⟨rfl, rfl⟩
    · rcases List.mem_map.mp hy with ⟨f, _, hye⟩
      subst hye
      exact Or.inr ⟨rfl, rfl⟩
  cases df with
  | none => exact base x h
  | some f =>
    rcases List.mem_append.mp h with hy | hy
    · exact base x hy
    · have hye : x = ModifyRequest.enableFeature dpid f t := by
        simpa using hy
      subst hye
      exact Or.inr ⟨rfl, rfl⟩

theorem try_enable_dep_pushes (ps : List (PackageId × Package)) (pid : PackageId)
    (target : TargetPlatform) (dep : String) (dpid : PackageId) (df : Option String)
    (m : List (PackageId × DependingOn)) (specs : DepSpecMap)
    (ts : TargetPlatform → TargetPlatform) (q : List ModifyRequest)
    (m2 : List (PackageId × DependingOn)) (q2 : List ModifyRequest)
    (hts : ts TargetPlatform.Build = TargetPlatform.Build)
    (h : try_enable_dep ps pid target dep dpid df m specs ts q = Except.ok (m2, q2)) :
    ∀ x ∈ q2, x ∈ q ∨ depPush ps target x := by
  intro x hx
  simp only [try_enable_dep] at h
  split at h
  · simp at h
  · rename_i dpkg hps
    have hrr : ∀ u : TargetPlatform, (target = TargetPlatform.Build → u = TargetPlatform.Build) →
        ∀ y : ModifyRequest, y.pid = dpid →
        y.role = (if dpkg.manifest.lib.procMacroFlag then TargetPlatform.to_build (ts u) else ts u) →
        depPush ps target y := by
      intro u hu y hypid hyrole
      refine ⟨dpkg, ?_, ?_, ?_⟩
      · rw [hypid]
        exact hps
      · intro hpm
        rw [hyrole, hpm]
        simp [to_build_eq]
      · intro htb
        rw [hyrole, hu htb, hts]
        cases dpkg.manifest.lib.procMacroFlag <;> simp [to_build_eq]
    split at h
    · cases h
      exact Or.inl hx
    · rename_i spec hspec
      cases h
      rcases mem_propagate _ _ _ _ _ x hx with hx1 | ⟨hpid, hrole⟩
      · rcases mem_propagate _ _ _ _ _ x hx1 with hx2 | ⟨hpid, hrole⟩
        · rcases mem_ite_append hx2 with hx3 | hsing
          · rcases mem_ite_append hx3 with hx4 | hsing
            · exact Or.inl hx4
            · have hxe := List.mem_singleton.mp hsing
              subst hxe
              exact Or.inr (hrr target (fun hb => hb) _ rfl rfl)
          · have hxe := List.mem_singleton.mp hsing
            subst hxe
            exact Or.inr (hrr (TargetPlatform.to_build target) (fun _ => to_build_eq target) _ rfl rfl)
        · exact Or.inr (hrr target (fun hb => hb) x hpid hrole)
      · exact Or.inr (hrr (TargetPlatform.to_build target) (fun _ => to_build_eq target) x hpid hrole)

theorem featureTargetBlocks_pushes (ps : List (PackageId × Package)) (pid : PackageId)
    (target : TargetPlatform) (dep : String) (dpid : PackageId) (df : Option String)
    (plat : Platform) (cf : List String) :
    ∀ (blocks : List (String × TargetSpecMap)) (st : DependingOnState)
      (q : List ModifyRequest) (st2 : DependingOnState) (q2 : List ModifyRequest),
      featureTargetBlocks ps pid target dep dpid df plat cf blocks st q = Except.ok (st2, q2) →
      ∀ x ∈ q2, x ∈ q ∨ depPush ps target x := by
  intro blocks
  induction blocks with
  | nil =>
    intro st q st2 q2 h x hx
    simp only [featureTargetBlocks] at h
    cases h
    exact Or.inl hx
  | cons hd rest ih =>
    intro st q st2 q2 h x hx
    obtain ⟨tspec, sm⟩ := hd
    simp only [featureTargetBlocks] at h
    split at h
    · split at h
      · simp at h
      · rename_i ma qa ha
        split at h
        · simp at h
        · rename_i mb qb hb
          rcases ih _ qb st2 q2 h x hx with hq | hp
          · rcases try_enable_dep_pushes ps pid target dep dpid df st.build_depending_on
                sm.build_dependencies TargetPlatform.to_build qa mb qb rfl hb x hq with hq2 | hp
            · exact try_enable_dep_pushes ps pid target dep dpid df st.depending_on
                sm.dependencies TargetPlatform.to_host q ma qa rfl ha x hq2
            · exact Or.inr hp
          · exact Or.inr hp
    · split at h
      · split at h
        · split at h
          · simp at h
          · rename_i ma qa ha
            split at h
            · simp at h
            · rename_i mb qb hb
              rcases ih _ qb st2 q2 h x hx with hq | hp
              · rcases try_enable_dep_pushes ps pid target dep dpid df st.build_depending_on
                    sm.build_dependencies TargetPlatform.to_build qa mb qb rfl hb x hq with hq2 | hp
                · exact try_enable_dep_pushes ps pid target dep dpid df st.depending_on
                    sm.dependencies TargetPlatform.to_host q ma qa rfl ha x hq2
                · exact Or.inr hp
              · exact Or.inr hp
        · exact ih st q st2 q2 h x hx
      · exact ih st q st2 q2 h x hx

theorem enableFeatureProcess_pushes (ctx : ResolveCtx) (pid : PackageId)
    (feature : String) (target : TargetPlatform) (st : DependingOnState)
    (fmap : FeatureMap) (q : List ModifyRequest) (st2 : DependingOnState)
    (fmap2 : FeatureMap) (q2 : List ModifyRequest)
    (h : enableFeatureProcess ctx pid feature target st fmap q = Except.ok (st2, fmap2, q2)) :
    ∀ x ∈ q2, x ∈ q ∨ depPush ctx.packages target x ∨
      (x.pid = pid ∧ x.role = target) := by
  intro x hx
  simp only [enableFeatureProcess] at h
  split at h
  · cases h
    exact Or.inl hx
  · rename_i package hpkg
    have himpl : ∀ y : ModifyRequest,
        y ∈ (match lookupA package.manifest.features feature with
          | some enabling => q ++ enabling.map (fun nf => ModifyRequest.enableFeature pid nf target)
          | none => q) →
        y ∈ q ∨ (y.pid = pid ∧ y.role = target) := by
      intro y hy
      split at hy
      · rcases List.mem_append.mp hy with hy | hy
        · exact Or.inl hy
        · rcases List.mem_map.mp hy with ⟨f, _, hye⟩
          subst hye
          exact Or.inr ⟨rfl, rfl⟩
      · exact Or.inl hy
    split at h
    · rename_i dep dpid hdep hdpid
      split at h
      · simp at h
      · rename_i ma qa ha
        split at h
        · simp at h
        · rename_i mb qb hb
          split at h
          · simp at h
          · rename_i mc qc hc
            have hxq : x ∈ qc := by
              have hq2 : qc = q2 := by
                cases h
                rfl
              rw [hq2]
              exact hx
            rcases featureTargetBlocks_pushes ctx.packages pid target dep dpid _
                (platFor ctx target) _ package.manifest.target _ qb mc qc hc x hxq with hq | hp
            · rcases try_enable_dep_pushes ctx.packages pid target dep dpid _
                  st.build_depending_on package.manifest.build_dependencies
                  TargetPlatform.to_build qa mb qb rfl hb x hq with hq2 | hp
              · rcases try_enable_dep_pushes ctx.packages pid target dep dpid _
                    st.depending_on package.manifest.dependencies
                    TargetPlatform.to_host _ ma qa rfl ha x hq2 with hq3 | hp
                · rcases himpl x hq3 with hq4 | hp
                  · exact Or.inl hq4
                  · exact Or.inr (Or.inr hp)
                · exact Or.inr (Or.inl hp)
              · exact Or.inr (Or.inl hp)
            · exact Or.inr (Or.inl hp)
    · have hxq : x ∈ (match lookupA package.manifest.features feature with
          | some enabling => q ++ enabling.map (fun nf => ModifyRequest.enableFeature pid nf target)
          | none => q) := by
        have hq2 : (match lookupA package.manifest.features feature with
            | some enabling => q ++ enabling.map (fun nf => ModifyRequest.enableFeature pid nf target)
            | none => q) = q2 := by
          cases h
          rfl
        rw [hq2]
        exact hx
      rcases himpl x hxq with hq | hp
      · exact Or.inl hq
      · exact Or.inr (Or.inr hp)

theorem step_pushes (ctx : ResolveCtx) (r : ModifyRequest) (st st2 : ResolveState)
    (h : resolveStep1 ctx r st = Except.ok st2) :
    ∀ x ∈ st2.req_queue, x ∈ st.req_queue ∨ depPush ctx.packages r.role x ∨
      (x.pid = r.pid ∧ x.role = r.role) := by
  intro x hx
  cases r with
  | enablePackage p t u =>
    simp only [resolveStep1] at h
    split at h
    · simp at h
    · rename_i dos qq hp
      have hxq : x ∈ qq := by
        have hq : qq = st2.req_queue := by
          cases h
          rfl
        rw [hq]
        exact hx
      rcases enablePackageProcess_pushes ctx p t u st.dos st.req_queue dos qq hp x hxq with hq | hp2
      · exact Or.inl hq
      · exact Or.inr (Or.inl hp2)
  | enableFeature p f t =>
    simp only [resolveStep1] at h
    split at h
    · simp at h
    · rename_i dos fmap qq hp
      have hxq : x ∈ qq := by
        have hq : qq = st2.req_queue := by
          cases h
          rfl
        rw [hq]
        exact hx
      rcases enableFeatureProcess_pushes ctx p f t st.dos st.features_enabled st.req_queue
          dos fmap qq hp x hxq with hq | hp2
      · exact Or.inl hq
      · exact Or.inr hp2

/-- C1 counterexample: package p, processed in Host role, has a
non-optional normal dependency on the proc-macro package m; the code
records the depending-on edge in the HOST side of the normal dependency
map (the role set is chosen by the requester's role before the shift),
with the Build side empty — refuting the claim that the edge lands in the
Build role map only and never in the Host role map.  The enqueued requests
for m do carry the Build role. -/
theorem c1_counterexample :
    resolveStep1 c1Ctx (ModifyRequest.enablePackage "p" .Host false) ⟨[], ⟨[], [], []⟩, []⟩ =
      Except.ok ⟨[ModifyRequest.enablePackage "m" .Build false,
          ModifyRequest.enableFeature "m" "default" .Build],
        ⟨[("p", ⟨[], ["m"]⟩)], [("p", ⟨[], []⟩)], []⟩, []⟩ ∧
    pkgM.manifest.lib.procMacroFlag = true :=
  ⟨rfl, rfl⟩

/-- C1 (amended): the ROLE CARRIED BY ENQUEUED REQUESTS is shifted — (i)
once a request's role is Build, every request its processing enqueues
carries Build (a role never shifts back to Host); (ii) every request that
enable_dep enqueues on behalf of a dependency whose target package is a
proc-macro carries the Build role; (iii) the same for try_enable_dep —
while the depending-on edge itself is recorded under the requester-role
set (see the counterexample). -/
theorem c1_role_shift :
    (∀ (ctx : ResolveCtx) (r : ModifyRequest) (st st2 : ResolveState),
      r.role = TargetPlatform.Build → resolveStep1 ctx r st = Except.ok st2 →
      ∀ x ∈ st2.req_queue, x ∈ st.req_queue ∨ x.role = TargetPlatform.Build) ∧
    (∀ (ps : List (PackageId × Package)) (pid : PackageId) (target : TargetPlatform)
      (ds : DepSpecMap) (mdo : List (PackageId × List (String × PackageId)))
      (m : List (PackageId × DependingOn)) (ts : TargetPlatform → TargetPlatform)
      (q : List ModifyRequest) (m2 : List (PackageId × DependingOn)) (q2 : List ModifyRequest),
      ts TargetPlatform.Build = TargetPlatform.Build →
      enable_dep ps pid target ds mdo m ts q = Except.ok (m2, q2) →
      ∀ x ∈ q2, x ∈ q ∨ ∀ dpkg, lookupA ps x.pid = some dpkg →
        dpkg.manifest.lib.procMacroFlag = true → x.role = TargetPlatform.Build) ∧
    (∀ (ps : List (PackageId × Package)) (pid : PackageId) (target : TargetPlatform)
      (dep : String) (dpid : PackageId) (df : Option String)
      (m : List (PackageId × DependingOn)) (specs : DepSpecMap)
      (ts : TargetPlatform → TargetPlatform) (q : List ModifyRequest)
      (m2 : List (PackageId × DependingOn)) (q2 : List ModifyRequest),
      ts TargetPlatform.Build = TargetPlatform.Build →
      try_enable_dep ps pid target dep dpid df m specs ts q = Except.ok (m2, q2) →
      ∀ x ∈ q2, x ∈ q ∨ ∀ dpkg, lookupA ps x.pid = some dpkg →
        dpkg.manifest.lib.procMacroFlag = true → x.role = TargetPlatform.Build) := by
  refine ⟨?_, ?_, ?_⟩
  · intro ctx r st st2 hr h x hx
    rcases step_pushes ctx r st st2 h x hx with hq | ⟨dpkg, _, _, hb⟩ | ⟨_, hrole⟩
    · exact Or.inl hq
    · exact Or.inr (hb hr)
    · exact Or.inr (hrole.trans hr)
  · intro ps pid target ds mdo m ts q m2 q2 hts h x hx
    rcases enable_dep_pushes ps pid target ds mdo m ts q m2 q2 hts h x hx with hq | ⟨dpkg, hlk, hpm, _⟩
    · exact Or.inl hq
    · refine Or.inr (fun dpkg2 hlk2 hpm2 => ?_)
      rw [hlk] at hlk2
      cases hlk2
      exact hpm hpm2
  · intro ps pid target dep dpid df m specs ts q m2 q2 hts h x hx
    rcases try_enable_dep_pushes ps pid target dep dpid df m specs ts q m2 q2 hts h x hx with hq | ⟨dpkg, hlk, hpm, _⟩
    · exact Or.inl hq
    · refine Or.inr (fun dpkg2 hlk2 hpm2 => ?_)
      rw [hlk] at hlk2
      cases hlk2
      exact hpm hpm2

/-- Witness for the amended C1: processing package p of c1Ctx under the
Build role enqueues only Build-role requests. -/
theorem c1_role_shift_witness :
    ∀ x ∈ [ModifyRequest.enablePackage "m" .Build false,
        ModifyRequest.enableFeature "m" "default" .Build],
      x ∈ ([] : List ModifyRequest) ∨ x.role = TargetPlatform.Build :=
  c1_role_shift.1 c1Ctx (ModifyRequest.enablePackage "p" .Build false)
    ⟨[], ⟨[], [], []⟩, []⟩
    ⟨[ModifyRequest.enablePackage "m" .Build false,
        ModifyRequest.enableFeature "m" "default" .Build],
      ⟨[("p", ⟨["m"], []⟩)], [("p", ⟨[], []⟩)], []⟩, []⟩
    rfl rfl

theorem extends_trans {A : Type} {a b c : List A} (h1 : ∃ l, b = a ++ l)
    (h2 : ∃ l, c = b ++ l) : ∃ l, c = a ++ l := by
  rcases h1 with ⟨l1, rfl⟩
  rcases h2 with ⟨l2, rfl⟩
  exact ⟨l1 ++ l2, by simp⟩

theorem ite_extends {A : Type} {c : Prop} [Decidable c] (q l : List A) :
    ∃ l2, (if c then q ++ l else q) = q ++ l2 := by
  split
  · exact ⟨l, rfl⟩
  · exact ⟨[], by simp⟩

theorem propagate_extends (spec : DepSpec) (dpid : PackageId) (df : Option String)
    (t : TargetPlatform) (q : List ModifyRequest) :
    ∃ l, propagateFeatures spec dpid df t q = q ++ l := by
  simp only [propagateFeatures]
  cases df with
  | none => exact extends_trans (ite_extends q _) ⟨_, rfl⟩
  | some f => exact extends_trans (extends_trans (ite_extends q _) ⟨_, rfl⟩) ⟨_, rfl⟩

theorem try_enable_dep_extends (ps : List (PackageId × Package)) (pid : PackageId)
    (target : TargetPlatform) (dep : String) (dpid : PackageId) (df : Option String)
    (m : List (PackageId × DependingOn)) (specs : DepSpecMap)
    (ts : TargetPlatform → TargetPlatform) (q : List ModifyRequest)
    (m2 : List (PackageId × DependingOn)) (q2 : List ModifyRequest)
    (h : try_enable_dep ps pid target dep dpid df m specs ts q = Except.ok (m2, q2)) :
    ∃ l, q2 = q ++ l := by
  simp only [try_enable_dep] at h
  split at h
  · simp at h
  · split at h
    · cases h
      exact ⟨[], by simp⟩
    · cases h
      exact extends_trans
        (extends_trans (extends_trans (ite_extends q _) (ite_extends _ _)) (propagate_extends _ _ _ _ _))
        (propagate_extends _ _ _ _ _)

theorem featureTargetBlocks_extends (ps : List (PackageId × Package)) (pid : PackageId)
    (target : TargetPlatform) (dep : String) (dpid : PackageId) (df : Option String)
    (plat : Platform) (cf : List String) :
    ∀ (blocks : List (String × TargetSpecMap)) (st : DependingOnState)
      (q : List ModifyRequest) (st2 : DependingOnState) (q2 : List ModifyRequest),
      featureTargetBlocks ps pid target dep dpid df plat cf blocks st q = Except.ok (st2, q2) →
      ∃ l, q2 = q ++ l := by
  intro blocks
  induction blocks with
  | nil =>
    intro st q st2 q2 h
    simp only [featureTargetBlocks] at h
    cases h
    exact ⟨[], by simp⟩
  | cons hd rest ih =>
    intro st q st2 q2 h
    obtain ⟨tspec, sm⟩ := hd
    simp only [featureTargetBlocks] at h
    split at h
    · split at h
      · simp at h
      · rename_i ma qa ha
        split at h
        · simp at h
        · rename_i mb qb hb
          exact extends_trans
            (extends_trans (try_enable_dep_extends _ _ _ _ _ _ _ _ _ _ _ _ ha)
              (try_enable_dep_extends _ _ _ _ _ _ _ _ _ _ _ _ hb))
            (ih _ qb st2 q2 h)
    · split at h
      · split at h
        · split at h
          · simp at h
          · rename_i ma qa ha
            split at h
            · simp at h
            · rename_i mb qb hb
              exact extends_trans
                (extends_trans (try_enable_dep_extends _ _ _ _ _ _ _ _ _ _ _ _ ha)
                  (try_enable_dep_extends _ _ _ _ _ _ _ _ _ _ _ _ hb))
                (ih _ qb st2 q2 h)
        · exact ih st q st2 q2 h
      · exact ih st q st2 q2 h

theorem resolveFeatureName_fst (me : List (String × PackageId)) (f : String) :
    (resolveFeatureName me f).1.getD f = featureKey f := by
  unfold resolveFeatureName featureKey
  cases hsp : splitDepFeature f with
  | none =>
    simp only [hsp]
    split <;> rfl
  | some p =>
    obtain ⟨d, f2⟩ := p
    simp only [hsp]
    rfl

theorem efp_already_enabled (ctx : ResolveCtx) (pid : PackageId) (feature : String)
    (target : TargetPlatform) (st : DependingOnState) (fmap : FeatureMap)
    (q : List ModifyRequest) (st2 : DependingOnState) (fmap2 : FeatureMap)
    (q2 : List ModifyRequest) (package : Package)
    (hpkg : lookupA ctx.packages pid = some package)
    (hmem : featureKey feature ∈ (lookupA fmap pid).getD [])
    (h : enableFeatureProcess ctx pid feature target st fmap q = Except.ok (st2, fmap2, q2)) :
    fmap2 = fmap ∧
    ∀ g ∈ (lookupA package.manifest.features feature).getD [],
      ModifyRequest.enableFeature pid g target ∈ q2 := by
  simp only [enableFeatureProcess, hpkg] at h
  cases hfs : lookupA fmap pid with
  | none =>
    rw [hfs] at hmem
    simp at hmem
  | some s =>
    rw [hfs] at hmem
    simp only [Option.getD_some] at hmem
    have hFM : updateA fmap pid []
        (fun s2 => (insertSet s2 ((resolveFeatureName ((lookupA ctx.mdo pid).getD []) feature).1.getD feature)).2) = fmap := by
      rw [resolveFeatureName_fst]
      unfold updateA
      rw [hfs]
      simp only [insertSet, hmem, if_true]
      exact insertA_self fmap pid s hfs
    rw [hFM] at h
    have himpl : ∀ g ∈ (lookupA package.manifest.features feature).getD [],
        ModifyRequest.enableFeature pid g target ∈
          (match lookupA package.manifest.features feature with
            | some enabling => q ++ enabling.map (fun nf => ModifyRequest.enableFeature pid nf target)
            | none => q) := by
      cases hfeat : lookupA package.manifest.features feature with
      | none => simp
      | some enabling =>
        intro g hg
        simp only [Option.getD_some] at hg
        simp only [List.mem_append]
        exact Or.inr (List.mem_map.mpr ⟨g, hg, rfl⟩)
    split at h
    · rename_i dep dpid hdep hdpid
      split at h
      · simp at h
      · rename_i ma qa ha
        split at h
        · simp at h
        · rename_i mb qb hb
          split at h
          · simp at h
          · rename_i mc qc hc
            cases h
            refine ⟨rfl, ?_⟩
            intro g hg
            rcases try_enable_dep_extends _ _ _ _ _ _ _ _ _ _ _ _ ha with ⟨l1, hl1⟩
            rcases try_enable_dep_extends _ _ _ _ _ _ _ _ _ _ _ _ hb with ⟨l2, hl2⟩
            rcases featureTargetBlocks_extends _ _ _ _ _ _ _ _ _ _ _ _ _ hc with ⟨l3, hl3⟩
            rw [hl3, hl2, hl1]
            simp only [List.mem_append]
            exact Or.inl (Or.inl (Or.inl (himpl g hg)))
    · cases h
      exact ⟨rfl, himpl⟩

/-- C4 (amended): processing EnableFeature(p, role, f) when f's recorded
key is already present in p's enabled-feature set leaves every
enabled-feature set unchanged, but it is NOT a no-op: f's implications are
re-enqueued unconditionally (the insertion result is discarded), each one
present in the resulting queue. -/
theorem c4_feature_reenqueue (ctx : ResolveCtx) (pid : PackageId) (feature : String)
    (target : TargetPlatform) (st st2 : ResolveState) (package : Package)
    (hpkg : lookupA ctx.packages pid = some package)
    (hmem : featureKey feature ∈ (lookupA st.features_enabled pid).getD [])
    (hok : resolveStep1 ctx (ModifyRequest.enableFeature pid feature target) st = Except.ok st2) :
    st2.features_enabled = st.features_enabled ∧
    ∀ g ∈ (lookupA package.manifest.features feature).getD [],
      ModifyRequest.enableFeature pid g target ∈ st2.req_queue := by
  simp only [resolveStep1] at hok
  split at hok
  · simp at hok
  · rename_i dos fmap qq hefp
    cases hok
    exact efp_already_enabled ctx pid feature target st.dos st.features_enabled
      st.req_queue dos fmap qq package hpkg hmem hefp

/-- Witness for the amended C4: re-processing the already-enabled feature
a of c4Ctx leaves the feature map unchanged and re-enqueues the
implication b. -/
theorem c4_feature_reenqueue_witness :
    (ResolveState.features_enabled ⟨[ModifyRequest.enableFeature "p" "b" .Host], ⟨[], [], []⟩,
        [("p", ["a"])]⟩ : FeatureMap) = [("p", ["a"])] ∧
    ∀ g ∈ (lookupA pkgP4.manifest.features "a").getD [],
      ModifyRequest.enableFeature "p" g .Host ∈
        ResolveState.req_queue ⟨[ModifyRequest.enableFeature "p" "b" .Host], ⟨[], [], []⟩,
          [("p", ["a"])]⟩ :=
  c4_feature_reenqueue c4Ctx "p" "a" .Host
    ⟨[], ⟨[], [], []⟩, [("p", ["a"])]⟩
    ⟨[ModifyRequest.enableFeature "p" "b" .Host], ⟨[], [], []⟩, [("p", ["a"])]⟩
    pkgP4 rfl (by decide) rfl

/-- C5 (amended): only the EnableFeature arm evaluates non-literal target
blocks against the package's enabled features captured at processing time;
the EnablePackage arm passes an EMPTY feature list to every predicate and
neither reads nor writes the enabled-feature map: its result is the same
for every value of the map, and the map passes through unchanged. -/
theorem c5_enable_package_ignores_features (ctx : ResolveCtx) (pid : PackageId)
    (target : TargetPlatform) (ud : Bool) (q : List ModifyRequest)
    (dos : DependingOnState) (F F2 : FeatureMap) :
    (∀ st2, resolveStep1 ctx (ModifyRequest.enablePackage pid target ud) ⟨q, dos, F⟩ =
      Except.ok st2 → st2.features_enabled = F) ∧
    resolveStep1 ctx (ModifyRequest.enablePackage pid target ud) ⟨q, dos, F2⟩ =
      (resolveStep1 ctx (ModifyRequest.enablePackage pid target ud) ⟨q, dos, F⟩).map
        (fun s => ⟨s.req_queue, s.dos, F2⟩) := by
  constructor
  · intro st2 h
    simp only [resolveStep1] at h
    split at h
    · simp at h
    · cases h
      rfl
  · simp only [resolveStep1]
    cases h : enablePackageProcess ctx pid target ud dos q with
    | error e => simp [Except.map]
    | ok v =>
      obtain ⟨d, qq⟩ := v
      simp [Except.map]

/-- Witness for the amended C5: on the concrete c5 data, processing
EnablePackage with feature x enabled gives the same queue and edges as
with nothing enabled (only the untouched feature map differs). -/
theorem c5_enable_package_ignores_features_witness :
    resolveStep1 c5Ctx (ModifyRequest.enablePackage "p" .Host false) ⟨[], ⟨[], [], []⟩, [("p", ["x"])]⟩ =
      (resolveStep1 c5Ctx (ModifyRequest.enablePackage "p" .Host false) ⟨[], ⟨[], [], []⟩, []⟩).map
        (fun s => ⟨s.req_queue, s.dos, [("p", ["x"])]⟩) :=
  (c5_enable_package_ignores_features c5Ctx "p" .Host false [] ⟨[], [], []⟩ []
    [("p", ["x"])]).2

theorem leB_required (o : Optionality) : Optionality.leB o Optionality.Required = true := by
  cases o <;> rfl

theorem leB_refl (o : Optionality) : Optionality.leB o o = true := by
  cases o with
  | Required => rfl
  | Optional rb ab =>
    simp [Optionality.leB, List.all_eq_true]

theorem leB_promote (n : Nat) (o : Optionality) :
    Optionality.leB o (promoteOpt n o) = true := by
  cases o with
  | Required => rfl
  | Optional rb ab =>
    simp only [promoteOpt]
    split
    · exact leB_required _
    · exact leB_refl _

theorem forall₂_append_both {A B : Type} {R : A → B → Prop} :
    ∀ {l1 : List A} {u1 : List A} {l2 : List B} {u2 : List B},
      List.Forall₂ R l1 l2 → List.Forall₂ R u1 u2 →
      List.Forall₂ R (l1 ++ u1) (l2 ++ u2) := by
  intro l1 u1 l2 u2 h1 h2
  induction h1 with
  | nil => simpa using h2
  | cons hr _ ih => exact List.Forall₂.cons hr ih

/-- C6: Optionality is monotonic — activated_by and required_by leave
Required unchanged and only grow an Optional item's recorded sets, and
simplify_optionality moves every item of a package (dev dependencies
included) upward in the order whose top is Required; in particular an item
that is Required is never Optional afterwards. -/
theorem c6_optionality_monotone :
    (∀ (o : Optionality) (rf : PackageName × String),
      Optionality.leB o (o.activated_by rf) = true) ∧
    (∀ (o : Optionality) (p : PackageName),
      Optionality.leB o (o.required_by p) = true) ∧
    (∀ (n : Nat) (rpkg : ResolvedPackage),
      List.Forall₂ (fun a b => Optionality.leB a b = true)
        (allOptionality rpkg) (allOptionality (simplifyPkg n rpkg))) := by
  refine ⟨?_, ?_, ?_⟩
  · intro o rf
    cases o with
    | Required => rfl
    | Optional rb ab =>
      simp only [Optionality.activated_by]
      split
      · exact leB_refl _
      · simp only [Optionality.leB, insertSet, Bool.and_eq_true, List.all_eq_true,
          decide_eq_true_eq]
        constructor
        · intro x hx
          exact hx
        · intro x hx
          split
          · exact hx
          · exact List.mem_append_left _ hx
  · intro o p
    cases o with
    | Required => rfl
    | Optional rb ab =>
      simp only [Optionality.required_by]
      simp only [Optionality.leB, insertSet, Bool.and_eq_true, List.all_eq_true,
        decide_eq_true_eq]
      constructor
      · intro x hx
        split
        · exact hx
        · exact List.mem_append_left _ hx
      · intro x hx
        exact hx
  · intro n rpkg
    unfold simplifyPkg simplifyPass3
    by_cases hc : allEq (iterOptionality (simplifyPass2 (simplifyPass1 n rpkg))) = true
    · rw [if_pos hc]
      unfold allOptionality simplifyPass2 simplifyPass1
      simp only [List.map_map]
      apply forall₂_append_both
      · apply forall₂_map_map
        intro a _
        dsimp only [Function.comp]
        by_cases hdev : a.1.2 = DepKind.Development
        · simp [hdev]
          exact leB_required _
        · simp [hdev]
          exact leB_required _
      · apply forall₂_map_map
        intro a _
        dsimp only [Function.comp]
        exact leB_required _
    · rw [if_neg hc]
      unfold allOptionality simplifyPass2 simplifyPass1
      simp only [List.map_map]
      apply forall₂_append_both
      · apply forall₂_map_map
        intro a _
        dsimp only [Function.comp]
        by_cases hdev : a.1.2 = DepKind.Development
        · simp [hdev]
          exact leB_required _
        · simp [hdev]
          exact leB_promote n _
      · apply forall₂_map_map
        intro a _
        dsimp only [Function.comp]
        exact leB_promote n _

/-- Witness for C6 at concrete optionalities and a concrete package. -/
theorem c6_optionality_monotone_witness :
    Optionality.leB (Optionality.Optional ["r"] [])
      ((Optionality.Optional ["r"] []).activated_by ("r2", "f")) = true ∧
    Optionality.leB (Optionality.Optional ["r"] [])
      ((Optionality.Optional ["r"] []).required_by "r2") = true ∧
    List.Forall₂ (fun a b => Optionality.leB a b = true)
      (allOptionality rpkgEx) (allOptionality (simplifyPkg 1 rpkgEx)) :=
  ⟨c6_optionality_monotone.1 (Optionality.Optional ["r"] []) ("r2", "f"),
    c6_optionality_monotone.2.1 (Optionality.Optional ["r"] []) "r2",
    c6_optionality_monotone.2.2 1 rpkgEx⟩

/-- C7: after all roots are processed, every item (dependency or feature)
whose required_by set equals the full set of root packages — as a
permutation of the duplicate-free root list, so the stored length equals
the root count — is Required after simplify_optionality, and its rendered
condition is the constant true. -/
theorem c7_coverage_promotion (roots : List PackageName) (v : String)
    (rpkg : ResolvedPackage) :
    List.Forall₂ (fun o o2 => ∀ rb ab, o = Optionality.Optional rb ab → rb.Perm roots →
        o2 = Optionality.Required ∧ Optionality.to_expr o2 v = BoolExpr.True)
      (allOptionality rpkg) (allOptionality (simplifyPkg roots.length rpkg)) := by
  unfold simplifyPkg simplifyPass3
  by_cases hc : allEq (iterOptionality (simplifyPass2 (simplifyPass1 roots.length rpkg))) = true
  · rw [if_pos hc]
    unfold allOptionality simplifyPass2 simplifyPass1
    simp only [List.map_map]
    apply forall₂_append_both
    · apply forall₂_map_map
      intro a _
      dsimp only [Function.comp]
      by_cases hdev : a.1.2 = DepKind.Development
      · simp [hdev, Optionality.to_expr]
      · simp [hdev, Optionality.to_expr]
    · apply forall₂_map_map
      intro a _
      dsimp only [Function.comp]
      intro rb ab h hperm
      exact ⟨rfl, rfl⟩
  · rw [if_neg hc]
    unfold allOptionality simplifyPass2 simplifyPass1
    simp only [List.map_map]
    apply forall₂_append_both
    · apply forall₂_map_map
      intro a _
      dsimp only [Function.comp]
      by_cases hdev : a.1.2 = DepKind.Development
      · simp [hdev, Optionality.to_expr]
      · simp [hdev]
        intro rb ab h hperm
        have hX : promoteOpt roots.length a.2.optionality = Optionality.Required := by
          rw [h]
          simp only [promoteOpt]
          rw [if_pos hperm.length_eq]
        refine ⟨hX, ?_⟩
        rw [hX]
        rfl
    · apply forall₂_map_map
      intro a _
      dsimp only [Function.comp]
      intro rb ab h hperm
      have hX : promoteOpt roots.length a.2 = Optionality.Required := by
        rw [h]
        simp only [promoteOpt]
        rw [if_pos hperm.length_eq]
      refine ⟨hX, ?_⟩
      rw [hX]
      rfl

/-- Witness for C7 at a concrete single-root workspace. -/
theorem c7_coverage_promotion_witness :
    List.Forall₂ (fun o o2 => ∀ rb ab, o = Optionality.Optional rb ab → rb.Perm ["r"] →
        o2 = Optionality.Required ∧ Optionality.to_expr o2 "rootFeatures" = BoolExpr.True)
      (allOptionality rpkgEx) (allOptionality (simplifyPkg (List.length ["r"]) rpkgEx)) :=
  c7_coverage_promotion ["r"] "rootFeatures" rpkgEx

end Cargo2nix
